import Mathlib

/-!
# Verification of the crypto-market-csv CLI (`src/cli.ts`)

Shallow embedding of the three components of the program:

* `runCollector` — the Coinbase streaming collector (`getCoinbasePriceData`,
  `cli.ts` lines 31–70): an event loop over websocket events that accumulates
  one ticker record per product id in an insertion-ordered mapping and
  resolves once the mapping holds as many keys as `productIds`.
* `getBinancePriceData` / `runSnapshot` — the Binance snapshot fetcher
  (`cli.ts` lines 89–123): validation of the parsed response body and
  translation of records through the `productIds` remap, plus the
  event-level wiring of the HTTP request (which events have handlers).
* `printExchangeRates` / `topLevel` — the aggregator (`cli.ts` lines
  128–154): tagging, concatenation, `Array.prototype.sort()` and the writes
  to stdout, and the process-level `.catch` of line 154.

JavaScript values parsed from JSON are modelled by `JsValue`; machine-level
string comparison (`<` on JS strings, used by the default `sort()`
comparator) compares UTF-16 code units and is modelled by `jsStrLe`.
-/

namespace CryptoCsv

/-- A JavaScript value as produced by `JSON.parse`. -/
inductive JsValue where
  | null
  | bool (b : Bool)
  | num (n : Int)
  | str (s : String)
  | arr (items : List JsValue)
  | obj (fields : List (String × JsValue))

/-- Property access `value[k]` on a parsed JSON value.  Only objects carry
named properties here (a parsed array has no named string keys of interest);
`JSON.parse` keeps the *last* binding of a duplicated key, hence the lookup
from the reversed field list.  Absent property = `none` (JS `undefined`). -/
def getProp : JsValue → String → Option JsValue
  | .obj fields, k => (fields.reverse.find? (fun p => p.1 == k)).map (·.2)
  | _, _ => none

/-- `typeof value === 'object' && value !== null` : true exactly for parsed
arrays and objects (JS `typeof null` is `'object'`, excluded by the second
conjunct; no other parsed JSON value has typeof `'object'`). -/
def isObjectNotNull : JsValue → Bool
  | .arr _ => true
  | .obj _ => true
  | _ => false

/-- `typeof value[k] === 'string'`. -/
def propIsString (v : JsValue) (k : String) : Bool :=
  match getProp v k with
  | some (.str _) => true
  | _ => false

/-- `value[k] === s` for a string literal `s` (strict equality with a string
is true iff the property is that very string). -/
def propEqStr (v : JsValue) (k : String) (s : String) : Bool :=
  match getProp v k with
  | some (.str x) => x == s
  | _ => false

/-- Reads a string property, with a junk default for the impossible case
(every use is guarded by a `propIsString` check in the source). -/
def asString (o : Option JsValue) : String :=
  match o with
  | some (.str s) => s
  | _ => ""

/-! ## Coinbase streaming collector (`cli.ts` 11–70) -/

/-- Ticker data from Coinbase (`interface CoinbaseTickerData`); the constant
discriminator field `type : 'ticker'` carries no information and is dropped. -/
structure CoinbaseTickerData where
  product_id : String
  price : String
deriving DecidableEq, Repr

/-- `isCoinbaseTickerData` (`cli.ts` 21–26): object check, discriminator
`type === 'ticker'`, string `product_id` and `price`. -/
def isCoinbaseTickerData (v : JsValue) : Bool :=
  isObjectNotNull v
    && propEqStr v "type" "ticker"
    && propIsString v "product_id"
    && propIsString v "price"

/-- The record the handler stores: `tickerData[data.product_id] = data`
(observable fields of `data` under the guard). -/
def extractTicker (v : JsValue) : CoinbaseTickerData :=
  ⟨asString (getProp v "product_id"), asString (getProp v "price")⟩

/-- The accumulation mapping `tickerData`, a JS object: insertion-ordered
association list with unique keys (`Object.keys` / `Object.values` iterate
in insertion order; assigning an existing key keeps its position). -/
abbrev StateMap := List (String × CoinbaseTickerData)

/-- `tickerData[k] = v` on a JS object: overwrite in place if the key is
present, else append. -/
def insertOrdered (st : StateMap) (k : String) (v : CoinbaseTickerData) : StateMap :=
  if st.any (fun p => p.1 == k) then
    st.map (fun p => if p.1 == k then (k, v) else p)
  else
    st ++ [(k, v)]

/-- A websocket frame as seen by the `message` handler: a utf8 text frame
carrying its parsed JSON (the feed sends JSON text frames), or a non-utf8
frame (skipped by the `message.type === 'utf8'` test). -/
inductive WsMessage where
  | utf8 (data : JsValue)
  | binary

/-- An event on the open connection: an inbound message, or a transport
error delivered to the `error` handler. -/
inductive WsEvent where
  | message (m : WsMessage)
  | error (e : String)

/-- How the collector's promise can stand after a sequence of events. -/
inductive Settle where
  | resolved (quotes : List CoinbaseTickerData)
  | rejected (error : String)
  | pending (st : List (String × CoinbaseTickerData))
deriving DecidableEq

/-- The event loop of `getCoinbasePriceData` (`cli.ts` 35–69): the Boolean
records whether `connection.close()` has been called.  On `error` the
handler closes and rejects (43–47); on a utf8 message the parsed data is
guard-checked, stored under its `product_id`, and when the mapping has as
many keys as `productIds` the connection is closed and the promise resolves
with `Object.values(tickerData)` (49–63). -/
def runCollector (pids : List String) :
    List WsEvent → StateMap → Settle × Bool
  | [], st => (.pending st, false)
  | .error e :: _, _ => (.rejected e, true)
  | .message .binary :: rest, st => runCollector pids rest st
  | .message (.utf8 v) :: rest, st =>
      if isCoinbaseTickerData v then
        let td := extractTicker v
        let st' := insertOrdered st td.product_id td
        if st'.length = pids.length then
          (.resolved (st'.map Prod.snd), true)
        else
          runCollector pids rest st'
      else
        runCollector pids rest st

/-- An outcome of `client.connect` (`cli.ts` 68): the websocket client
either raises `connect` with an open connection that then delivers a
sequence of connection events, or raises `connectFailed` with the
connection-establishment error (DNS, TCP or TLS failure). -/
inductive ClientEvent where
  | connect (events : List WsEvent)
  | connectFailed (e : String)

/-- `getCoinbasePriceData` at the client level (`cli.ts` 31–70): the
source registers a handler only for the `connect` event (line 36) and none
for `connectFailed`, so a connection-establishment failure is dropped by
the event emitter — no handler closes anything, `reject` is never reached,
and the promise stays pending forever with an empty mapping. -/
def runClient (pids : List String) : ClientEvent → Settle × Bool
  | .connect events => runCollector pids events []
  | .connectFailed _ => (.pending [], false)

/-- One message's effect on the accumulation mapping (the state change of
lines 50–55, without the resolution check). -/
def stepMessage (st : StateMap) (m : WsMessage) : StateMap :=
  match m with
  | .utf8 v =>
      if isCoinbaseTickerData v then
        let td := extractTicker v
        insertOrdered st td.product_id td
      else st
  | .binary => st

/-- The ticker record a message contributes, if any. -/
def tickerOfMsg : WsMessage → Option CoinbaseTickerData
  | .utf8 v => if isCoinbaseTickerData v then some (extractTicker v) else none
  | .binary => none

/-- The ticker record a message contributes *for symbol `s`*, if any. -/
def tickerFor (m : WsMessage) (s : String) : Option CoinbaseTickerData :=
  match tickerOfMsg m with
  | some td => if td.product_id == s then some td else none
  | none => none

/-- The last valid ticker frame for symbol `s` in a frame sequence. -/
def lastTicker : List WsMessage → String → Option CoinbaseTickerData
  | [], _ => none
  | m :: fr, s => (lastTicker fr s).or (tickerFor m s)

/-- Lookup in the accumulation mapping. -/
def lookupState (st : StateMap) (k : String) : Option CoinbaseTickerData :=
  (st.find? (fun p => p.1 == k)).map (·.2)

/-- The keys of the accumulation mapping, in insertion order. -/
def stKeys (st : StateMap) : List String := st.map Prod.fst

/-! ## Binance snapshot fetcher (`cli.ts` 72–123) -/

/-- Ticker data from Binance (`interface BinanceTickerData`). -/
structure BinanceTickerData where
  symbol : String
  price : String
deriving DecidableEq, Repr

/-- `isBinanceTickerData` (`cli.ts` 79–83). -/
def isBinanceTickerData (v : JsValue) : Bool :=
  isObjectNotNull v
    && propIsString v "symbol"
    && propIsString v "price"

/-- The arrow function of `cli.ts` 103–113: destructure `symbol` and
`price`, look the symbol up in `productIds` (`Array.prototype.find`
returns the first match), rewrite the symbol on a hit, `null` otherwise. -/
def translateRecord (productIds : List (String × String)) (v : JsValue) :
    Option BinanceTickerData :=
  let symbol := asString (getProp v "symbol")
  let price := asString (getProp v "price")
  match productIds.find? (fun x => x.1 == symbol) with
  | some idPair => some ⟨idPair.2, price⟩
  | none => none

/-- The body of the `end` handler of `getBinancePriceData` from the parsed
JSON on (`cli.ts` 98–118): validate the top-level shape
(`Array.isArray(json) && json.every(isBinanceTickerData)`), then
`.map(...)` / `.filter(isNotNull)` (modelled by `reduceOption`); otherwise
`reject(new Error('Invalid JSON response data'))`. -/
def getBinancePriceData (productIds : List (String × String)) (json : JsValue) :
    Except String (List BinanceTickerData) :=
  match json with
  | .arr items =>
      if items.all isBinanceTickerData then
        .ok ((items.map (translateRecord productIds)).reduceOption)
      else
        .error "Invalid JSON response data"
  | _ => .error "Invalid JSON response data"

/-- Events on the HTTP request/response of `https.get` (`cli.ts` 91–121):
body chunks, end of body, or a request-level transport error. -/
inductive HttpEvent where
  | chunk (s : String)
  | ended
  | reqError (e : String)

/-- How the snapshot call can stand: resolved, rejected, still pending, or
an exception thrown *outside* the promise (no handler catches it, so it
escapes as an uncaught exception and the promise never settles). -/
inductive SnapshotOutcome where
  | resolved (quotes : List BinanceTickerData)
  | rejected (err : String)
  | uncaught (err : String)
  | pending (body : String)
deriving DecidableEq

/-- The event wiring of `getBinancePriceData` (`cli.ts` 90–122),
parameterised by `parse` (the behaviour of `JSON.parse`: a value or a
thrown `SyntaxError`).  Faithful to the source's handler set: `data` and
`end` handlers exist; a `JSON.parse` throw inside the `end` handler is
caught by nothing, and the request has **no** `error` listener, so a
transport error is likewise an uncaught exception — in neither case is
`reject` reached. -/
def runSnapshot (parse : String → Except String JsValue)
    (productIds : List (String × String)) :
    List HttpEvent → String → SnapshotOutcome
  | [], body => .pending body
  | .chunk s :: rest, body => runSnapshot parse productIds rest (body ++ s)
  | .ended :: _, body =>
      match parse body with
      | .error e => .uncaught e
      | .ok json =>
          match getBinancePriceData productIds json with
          | .ok quotes => .resolved quotes
          | .error e => .rejected e
  | .reqError e :: _, _ => .uncaught e

/-! ## Aggregator and process exit (`cli.ts` 128–154) -/

/-- UTF-16 code units of a string (JS strings are UTF-16; its `<` compares
code units left to right). -/
def utf16Units (s : String) : List Nat :=
  s.data.foldr
    (fun c acc =>
      if c.toNat < 0x10000 then c.toNat :: acc
      else (0xD800 + (c.toNat - 0x10000) / 0x400)
        :: (0xDC00 + (c.toNat - 0x10000) % 0x400) :: acc)
    []

/-- Lexicographic comparison of code-unit sequences. -/
def unitsLe : List Nat → List Nat → Bool
  | [], _ => true
  | _ :: _, [] => false
  | a :: as, b :: bs => if a < b then true else if b < a then false else unitsLe as bs

/-- `a <= b` on JS strings: code-unit lexicographic order — the order the
default `Array.prototype.sort()` comparator induces on strings. -/
def jsStrLe (a b : String) : Bool := unitsLe (utf16Units a) (utf16Units b)

/-- `lines.sort()` (`cli.ts` 147): the spec of `Array.prototype.sort` with
the default comparator requires a stable sort of the strings in code-unit
order; a stable merge sort by `jsStrLe` produces exactly that result. -/
def sortLines (lines : List String) : List String := lines.mergeSort jsStrLe

/-- A formatted Binance row, `` `Binance,${symbol},${price}\n` `` (143). -/
def binanceLine (q : BinanceTickerData) : String :=
  "Binance," ++ q.symbol ++ "," ++ q.price ++ "\n"

/-- A formatted Coinbase row, `` `Coinbase,${product_id},${price}\n` `` (145). -/
def coinbaseLine (q : CoinbaseTickerData) : String :=
  "Coinbase," ++ q.product_id ++ "," ++ q.price ++ "\n"

/-- `printExchangeRates` (`cli.ts` 128–151) as a function of the two
settled source promises: `Promise.all` rejects with the error of a rejected
input before any write happens; on joint success the tagged rows are
concatenated, sorted, and written after the header line.  Returns the
settlement of the returned promise and the ordered list of
`stdout.write` payloads. -/
def printExchangeRates (coinbase : Except String (List CoinbaseTickerData))
    (binance : Except String (List BinanceTickerData)) :
    Except String Unit × List String :=
  match coinbase, binance with
  | .error e, _ => (.error e, [])
  | .ok _, .error e => (.error e, [])
  | .ok coinbaseResults, .ok binanceResults =>
      let lines := sortLines
        (binanceResults.map binanceLine ++ coinbaseResults.map coinbaseLine)
      (.ok (), "Exchange,Market,Price\n" :: lines)

/-- The observable record of a validated snapshot element (string `symbol`
and `price` properties, guaranteed by `isBinanceTickerData`). -/
def recordOf (v : JsValue) : BinanceTickerData :=
  ⟨asString (getProp v "symbol"), asString (getProp v "price")⟩

/-- The translation rule as the spec states it (§4.2): for each validated
record, look `record.symbol` up against the remap by exact match on
`sourceSymbol`; on a hit emit a quote with the symbol rewritten to the
matched `targetSymbol` and the price unchanged; records with no match are
dropped.  Stated over already-extracted records, to be compared with the
source-side `getBinancePriceData`. -/
def specTranslate (remap : List (String × String))
    (records : List BinanceTickerData) : List BinanceTickerData :=
  records.filterMap (fun r =>
    match remap.find? (fun p => p.1 == r.symbol) with
    | some p => some ⟨p.2, r.price⟩
    | none => none)

/-- The program entry (`cli.ts` 153–154):
`printExchangeRates().catch(err => console.error(err))`.  A rejection is
caught and logged with `console.error`; nothing sets `process.exitCode` or
calls `process.exit`, so once the event loop drains the process exits with
the default status 0 on both paths.  Returns (stderr log lines, exit
status). -/
def topLevel (result : Except String Unit) : List String × Nat :=
  match result with
  | .ok _ => ([], 0)
  | .error e => ([e], 0)

/-! ## Theorems -/

/-- C2: a text frame whose parsed data fails the ticker shape guard (wrong
discriminator, malformed shape, heartbeat/status frame, or otherwise not a
valid ticker object) is discarded: no error is raised, the accumulated
mapping is unchanged, and collection continues with the subsequent events
exactly as if the frame had not arrived. -/
theorem invalid_frame_ignored (pids : List String) (st : StateMap)
    (rest : List WsEvent) (v : JsValue)
    (h : isCoinbaseTickerData v = false) :
    runCollector pids (.message (.utf8 v) :: rest) st = runCollector pids rest st := by
  simp [runCollector, h]

/-- Witness for C2: a heartbeat-style frame is skipped. -/
theorem invalid_frame_ignored_witness :
    isCoinbaseTickerData (.obj [("type", .str "heartbeat")]) = false ∧
    runCollector ["BTC-GBP"]
        [.message (.utf8 (.obj [("type", .str "heartbeat")]))] [] =
      runCollector ["BTC-GBP"] [] [] :=
  ⟨by decide, invalid_frame_ignored _ _ _ _ (by decide)⟩

/-- On the *open* connection (after `connect`) a transport error arriving
while the collector is still pending makes the `error` handler
(`cli.ts` 43–47) close the connection and reject with that error; the run
never resolves with a partial result, and the rejection propagates: the
aggregate promise rejects with it and the entry point surfaces it.
Contrast with `connect_failure_never_settles`: on the connection
*establishment* path no handler exists at all. -/
lemma transport_error_rejects (pids : List String) (e : String)
    (pre post : List WsEvent) (st0 st : StateMap)
    (bn : Except String (List BinanceTickerData))
    (h : runCollector pids pre st0 = (.pending st, false)) :
    runCollector pids (pre ++ .error e :: post) st0 = (.rejected e, true) ∧
    (printExchangeRates (.error e) bn).1 = .error e ∧
    topLevel (.error e) = ([e], 0) := by
  refine ⟨?_, rfl, rfl⟩
  induction pre generalizing st0 with
  | nil => simp [runCollector]
  | cons ev rest ih =>
    cases ev with
    | error e2 => simp [runCollector] at h
    | message m =>
      cases m with
      | binary =>
        rw [List.cons_append]
        simp only [runCollector] at h ⊢
        exact ih _ h
      | utf8 v =>
        rw [List.cons_append]
        by_cases hg : isCoinbaseTickerData v
        · simp only [runCollector, hg, if_true] at h ⊢
          by_cases hl :
              (insertOrdered st0 (extractTicker v).product_id (extractTicker v)).length
                = pids.length
          · simp [hl] at h
          · simp only [hl, if_false] at h ⊢
            exact ih _ h
        · simp only [runCollector, hg, if_false] at h ⊢
          exact ih _ h

/-- Concrete instance of the open-connection path: after one skipped
binary frame the collector is still pending, and an error event then
rejects with that error, which propagates. -/
lemma transport_error_rejects_example :
    runCollector ["BTC-GBP"] [.message .binary] [] = (.pending [], false) ∧
    (runCollector ["BTC-GBP"]
        ([.message .binary] ++ .error "ECONNRESET" :: []) [] =
      (.rejected "ECONNRESET", true) ∧
     (printExchangeRates (.error "ECONNRESET") (.ok [])).1 = .error "ECONNRESET" ∧
     topLevel (.error "ECONNRESET") = (["ECONNRESET"], 0)) :=
  ⟨rfl, transport_error_rejects _ _ _ _ _ _ _ rfl⟩

/-- C3 (code bug): the claim also covers connection-establishment failures
(DNS, TCP, TLS), but those are delivered as the client's `connectFailed`
event, for which the source registers no handler (`cli.ts` attaches only
`client.on('connect', ...)`, line 36).  Such a failure before any symbol
reports therefore leaves the collector's promise pending forever: it
neither rejects nor resolves, no teardown happens, and nothing reaches the
top-level caller — against the claimed rejection and propagation.  Errors
on an already-open connection do reject and propagate
(`transport_error_rejects`). -/
theorem connect_failure_never_settles (pids : List String) (e : String) :
    runClient pids (.connectFailed e) = (.pending [], false) :=
  rfl

/-- C5: a parsed snapshot body whose top-level shape is wrong — not an
array, or an array with an element failing the shape guard — is rejected
with the invalid-response error; it never resolves. -/
theorem invalid_shape_rejects (remap : List (String × String)) (json : JsValue)
    (h : ∀ items, json = .arr items → items.all isBinanceTickerData = false) :
    getBinancePriceData remap json = .error "Invalid JSON response data" := by
  cases json with
  | arr items => simp [getBinancePriceData, h items rfl]
  | null => rfl
  | bool b => rfl
  | num n => rfl
  | str s => rfl
  | obj fields => rfl

/-- Witness for C5: a JSON object body rejects (it does not resolve with an
empty list), and so does an array with a non-conforming element. -/
theorem invalid_shape_rejects_witness :
    getBinancePriceData [("ADABTC", "ADA-BTC")] (.obj [("code", .num 0)]) =
      .error "Invalid JSON response data" ∧
    getBinancePriceData [("ADABTC", "ADA-BTC")] (.arr [.num 3]) =
      .error "Invalid JSON response data" :=
  ⟨invalid_shape_rejects _ _ (fun _ h => nomatch h),
   invalid_shape_rejects _ _ (fun items h => by cases h; rfl)⟩

/-- C6 (code bug): on the snapshot path a request-level transport error and
a non-JSON body both escape as uncaught exceptions instead of rejecting the
promise: the source attaches no `error` listener to the `https.get` request
and does not guard `JSON.parse` in the `end` handler, so `reject` is never
reached and the promise never settles. -/
theorem snapshot_failures_escape_promise :
    runSnapshot (fun _ => .error "SyntaxError: Unexpected token")
        [("ADABTC", "ADA-BTC")]
        [.reqError "getaddrinfo ENOTFOUND api.binance.com"] "" =
      .uncaught "getaddrinfo ENOTFOUND api.binance.com" ∧
    runSnapshot (fun _ => .error "SyntaxError: Unexpected token")
        [("ADABTC", "ADA-BTC")] [.chunk "not json", .ended] "" =
      .uncaught "SyntaxError: Unexpected token" :=
  ⟨rfl, rfl⟩

/-- C8: if either source's promise rejects, the aggregator rejects with
that error and writes nothing to the output sink — neither the header nor
any data row. -/
theorem aggregator_rejects_without_output
    (cb : List CoinbaseTickerData) (bn : Except String (List BinanceTickerData))
    (e : String) :
    printExchangeRates (.error e) bn = (.error e, []) ∧
    printExchangeRates (.ok cb) (.error e) = (.error e, []) :=
  ⟨rfl, rfl⟩

/-- C9 (code bug): the rejection surfaced by the aggregation step is caught
and logged, but the process then exits with status 0, not a non-zero
status; on success it also exits 0. -/
theorem process_exit_status :
    topLevel (.error "Error: connect ECONNREFUSED") =
      (["Error: connect ECONNREFUSED"], 0) ∧
    topLevel (.ok ()) = ([], 0) :=
  ⟨rfl, rfl⟩

/-- Dropping the `none` entries of an option list is flattening its
zero-or-one-element lists. -/
lemma reduceOption_eq_flatten {α : Type} (l : List (Option α)) :
    l.reduceOption = (l.map Option.toList).flatten := by
  induction l with
  | nil => rfl
  | cons a l ih =>
    cases a with
    | none => simpa [List.reduceOption_cons_of_none] using ih
    | some x => simp [List.reduceOption_cons_of_some, ih]

/-- C10: for every remap containing two or more pairs with the same
`sourceSymbol` — written `pre ++ (s, t) :: rest` with no source-`s` pair in
`pre` and a duplicate `(s, t2)` in `rest` — every response record whose
symbol is `s`, of any shape, is translated by that earliest pair: `find`
skips the non-matching prefix and stops at the first match, ignoring the
later duplicates.  And the fetcher emits at most one output quote per
response record: its output is the concatenation of per-record
contributions, each of which holds at most one quote. -/
theorem remap_first_duplicate_wins
    (pre rest : List (String × String)) (s t t2 : String)
    (v : JsValue) (items : List JsValue) (qs : List BinanceTickerData)
    (hpre : ∀ p ∈ pre, p.1 ≠ s)
    (_hdup : (s, t2) ∈ rest)
    (hsym : getProp v "symbol" = some (.str s))
    (hqs : getBinancePriceData (pre ++ (s, t) :: rest) (.arr items) = .ok qs) :
    translateRecord (pre ++ (s, t) :: rest) v =
      some ⟨t, asString (getProp v "price")⟩ ∧
    qs = (items.map
      (fun r => (translateRecord (pre ++ (s, t) :: rest) r).toList)).flatten ∧
    ∀ r : JsValue,
      (translateRecord (pre ++ (s, t) :: rest) r).toList.length ≤ 1 := by
  have hsymval : asString (getProp v "symbol") = s := by
    rw [hsym]
    rfl
  have hfind : (pre ++ (s, t) :: rest).find? (fun x => x.1 == s) = some (s, t) := by
    rw [List.find?_append]
    have hnone : pre.find? (fun x => x.1 == s) = none :=
      List.find?_eq_none.mpr (fun p hp hbeq => hpre p hp (beq_iff_eq.mp hbeq))
    rw [hnone, Option.none_or]
    simp [List.find?]
  refine ⟨?_, ?_, ?_⟩
  · simp only [translateRecord, hsymval, hfind]
  · by_cases hall : items.all isBinanceTickerData
    · simp only [getBinancePriceData, hall, if_true, Except.ok.injEq] at hqs
      rw [← hqs, reduceOption_eq_flatten, List.map_map]
      rfl
    · simp [getBinancePriceData, hall] at hqs
  · intro r
    cases h : translateRecord (pre ++ (s, t) :: rest) r <;> simp [h]

/-- Witness for C10: the duplicated `ADABTC` pairs sit after the
non-matching prefix `("X","x")`; `find` skips the prefix and picks
`("ADABTC","A1")`, not the later `("ADABTC","A2")`. -/
theorem remap_first_duplicate_wins_witness :
    (∀ p ∈ [(("X" : String), ("x" : String))], p.1 ≠ "ADABTC") ∧
    (("ADABTC", "A2") ∈ [("ADABTC", "A2")]) ∧
    getProp (.obj [("symbol", .str "ADABTC"), ("price", .str "1.23")]) "symbol" =
      some (.str "ADABTC") ∧
    getBinancePriceData ([("X", "x")] ++ ("ADABTC", "A1") :: [("ADABTC", "A2")])
        (.arr [.obj [("symbol", .str "ADABTC"), ("price", .str "1.23")]]) =
      .ok [⟨"A1", "1.23"⟩] ∧
    (translateRecord ([("X", "x")] ++ ("ADABTC", "A1") :: [("ADABTC", "A2")])
        (.obj [("symbol", .str "ADABTC"), ("price", .str "1.23")]) =
      some ⟨"A1", asString (getProp
        (.obj [("symbol", .str "ADABTC"), ("price", .str "1.23")]) "price")⟩ ∧
     [(⟨"A1", "1.23"⟩ : BinanceTickerData)] =
      ([JsValue.obj [("symbol", .str "ADABTC"), ("price", .str "1.23")]].map
        (fun r => (translateRecord
          ([("X", "x")] ++ ("ADABTC", "A1") :: [("ADABTC", "A2")]) r).toList)).flatten ∧
     ∀ r : JsValue, (translateRecord
        ([("X", "x")] ++ ("ADABTC", "A1") :: [("ADABTC", "A2")]) r).toList.length ≤ 1) :=
  ⟨by decide, by decide, rfl, rfl,
   remap_first_duplicate_wins [("X", "x")] [("ADABTC", "A2")] "ADABTC" "A1" "A2"
     (.obj [("symbol", .str "ADABTC"), ("price", .str "1.23")])
     [.obj [("symbol", .str "ADABTC"), ("price", .str "1.23")]]
     [⟨"A1", "1.23"⟩] (by decide) (by decide) rfl rfl⟩

/-- Code-unit comparison is total. -/
lemma unitsLe_total : ∀ a b : List Nat, (unitsLe a b || unitsLe b a) = true
  | [], b => by simp [unitsLe]
  | a :: as, [] => by simp [unitsLe]
  | a :: as, b :: bs => by
    simp only [unitsLe]
    rcases Nat.lt_trichotomy a b with h | h | h
    · simp [h]
    · subst h
      simpa [Nat.lt_irrefl] using unitsLe_total as bs
    · simp [h, Nat.lt_asymm h]

/-- Code-unit comparison is transitive. -/
lemma unitsLe_trans : ∀ a b c : List Nat,
    unitsLe a b = true → unitsLe b c = true → unitsLe a c = true
  | [], _, _, _, _ => by simp [unitsLe]
  | a :: as, [], c, hab, _ => by simp [unitsLe] at hab
  | a :: as, b :: bs, [], _, hbc => by simp [unitsLe] at hbc
  | a :: as, b :: bs, c :: cs, hab, hbc => by
    simp only [unitsLe] at hab hbc ⊢
    by_cases h1 : a < b
    · by_cases h2 : b < c
      · simp [Nat.lt_trans h1 h2]
      · by_cases h3 : c < b
        · simp [h2, h3] at hbc
        · have hbc2 : b = c := Nat.le_antisymm (Nat.not_lt.mp h3) (Nat.not_lt.mp h2)
          subst hbc2
          simp [h1]
    · by_cases h4 : b < a
      · simp [h1, h4] at hab
      · have hab2 : a = b := Nat.le_antisymm (Nat.not_lt.mp h4) (Nat.not_lt.mp h1)
        subst hab2
        simp only [h1, if_neg (Nat.lt_irrefl a), if_neg h1] at hab ⊢
        by_cases h2 : a < c
        · simp [h2]
        · by_cases h3 : c < a
          · simp [h2, h3] at hbc
          · simp only [if_neg h2, if_neg h3] at hbc ⊢
            exact unitsLe_trans as bs cs hab hbc

/-- JS string comparison is total. -/
lemma jsStrLe_total : ∀ a b : String, (jsStrLe a b || jsStrLe b a) = true :=
  fun a b => unitsLe_total (utf16Units a) (utf16Units b)

/-- JS string comparison is transitive. -/
lemma jsStrLe_trans : ∀ a b c : String,
    jsStrLe a b = true → jsStrLe b c = true → jsStrLe a c = true :=
  fun a b c => unitsLe_trans (utf16Units a) (utf16Units b) (utf16Units c)

/-- C7: on joint success the aggregator writes first the literal header
line, then exactly the tagged rows — each streaming quote formatted as
`Coinbase,<symbol>,<price>\n`, each snapshot quote as
`Binance,<symbol>,<price>\n` — as a permutation of the concatenated lists,
sorted lexicographically (JS code-unit string order) by the full row
string. -/
theorem aggregator_output_sorted (cb : List CoinbaseTickerData)
    (bn : List BinanceTickerData) :
    ∃ sorted : List String,
      printExchangeRates (.ok cb) (.ok bn) =
        (.ok (), "Exchange,Market,Price\n" :: sorted) ∧
      sorted.Perm
        (bn.map (fun q => "Binance," ++ q.symbol ++ "," ++ q.price ++ "\n")
          ++ cb.map (fun q => "Coinbase," ++ q.product_id ++ "," ++ q.price ++ "\n")) ∧
      sorted.Pairwise (fun a b => jsStrLe a b = true) := by
  refine ⟨sortLines (bn.map binanceLine ++ cb.map coinbaseLine), rfl, ?_, ?_⟩
  · exact List.mergeSort_perm _ _
  · exact List.sorted_mergeSort jsStrLe_trans jsStrLe_total _

/-- C4: for a validated snapshot body and any remap, the fetcher's output
is exactly the spec's translation rule applied to the extracted records —
per-record exact lookup of the symbol among the remap's source symbols,
rewrite to the matched target with the price unchanged, drop on no match —
and with the empty remap the result is the empty list. -/
theorem snapshot_translation_matches_spec (remap : List (String × String))
    (items : List JsValue)
    (hvalid : ∀ v ∈ items, isBinanceTickerData v = true) :
    getBinancePriceData remap (.arr items) =
      .ok (specTranslate remap (items.map recordOf)) ∧
    getBinancePriceData [] (.arr items) = .ok [] := by
  have hall : items.all isBinanceTickerData = true := List.all_eq_true.mpr hvalid
  have key : ∀ rm : List (String × String),
      getBinancePriceData rm (.arr items) =
        .ok (specTranslate rm (items.map recordOf)) := by
    intro rm
    simp only [getBinancePriceData, hall, if_true]
    congr 1
    have h1 : (items.map (translateRecord rm)).reduceOption
        = items.filterMap (translateRecord rm) := by
      simp [List.reduceOption, List.filterMap_map]
    rw [h1]
    unfold specTranslate
    rw [List.filterMap_map]
    rfl
  refine ⟨key remap, ?_⟩
  rw [key []]
  congr 1
  exact List.filterMap_eq_nil_iff.mpr (fun a _ => rfl)

/-- Witness for C4: the worked example of spec §8. -/
theorem snapshot_translation_matches_spec_witness :
    (∀ v ∈ ([.obj [("symbol", .str "ADABTC"), ("price", .str "1.23")],
             .obj [("symbol", .str "XYZ"), ("price", .str "9.99")],
             .obj [("symbol", .str "DOTBTC"), ("price", .str "4.56")]] :
              List JsValue),
        isBinanceTickerData v = true) ∧
    (getBinancePriceData [("ADABTC", "ADA-BTC"), ("DOTBTC", "DOT-BTC")]
        (.arr [.obj [("symbol", .str "ADABTC"), ("price", .str "1.23")],
               .obj [("symbol", .str "XYZ"), ("price", .str "9.99")],
               .obj [("symbol", .str "DOTBTC"), ("price", .str "4.56")]]) =
      .ok (specTranslate [("ADABTC", "ADA-BTC"), ("DOTBTC", "DOT-BTC")]
        (([.obj [("symbol", .str "ADABTC"), ("price", .str "1.23")],
           .obj [("symbol", .str "XYZ"), ("price", .str "9.99")],
           .obj [("symbol", .str "DOTBTC"), ("price", .str "4.56")]] :
            List JsValue).map recordOf)) ∧
     getBinancePriceData []
        (.arr [.obj [("symbol", .str "ADABTC"), ("price", .str "1.23")],
               .obj [("symbol", .str "XYZ"), ("price", .str "9.99")],
               .obj [("symbol", .str "DOTBTC"), ("price", .str "4.56")]]) =
      .ok []) :=
  ⟨by decide, snapshot_translation_matches_spec _ _ (by decide)⟩

/-! ### The accumulation mapping: JS-object assignment lemmas -/

/-- Overwriting the value of a key does not change the key sequence. -/
lemma stKeys_overwrite (st : StateMap) (k : String) (v : CoinbaseTickerData) :
    stKeys (st.map (fun p => if p.1 == k then (k, v) else p)) = stKeys st := by
  unfold stKeys
  rw [List.map_map]
  apply List.map_congr_left
  intro p _
  simp only [Function.comp_apply]
  by_cases h : p.1 == k
  · rw [if_pos h]
    exact (beq_iff_eq.mp h).symm
  · rw [if_neg h]

/-- The key sequence after a JS-object assignment. -/
lemma stKeys_insertOrdered (st : StateMap) (k : String) (v : CoinbaseTickerData) :
    stKeys (insertOrdered st k v) =
      if st.any (fun p => p.1 == k) then stKeys st else stKeys st ++ [k] := by
  by_cases h : st.any (fun p => p.1 == k)
  · simp only [insertOrdered, h, if_true]
    exact stKeys_overwrite st k v
  · simp only [insertOrdered, h, if_false, Bool.false_eq_true]
    simp [stKeys]

/-- The size of the mapping after a JS-object assignment. -/
lemma length_insertOrdered (st : StateMap) (k : String) (v : CoinbaseTickerData) :
    (insertOrdered st k v).length =
      if st.any (fun p => p.1 == k) then st.length else st.length + 1 := by
  by_cases h : st.any (fun p => p.1 == k) <;> simp [insertOrdered, h]

/-- The presence test of `insertOrdered` is key membership. -/
lemma any_eq_mem_stKeys (st : StateMap) (k : String) :
    st.any (fun p => p.1 == k) = true ↔ k ∈ stKeys st := by
  rw [List.any_eq_true]
  unfold stKeys
  constructor
  · rintro ⟨p, hp, he⟩
    exact (beq_iff_eq.mp he) ▸ List.mem_map.mpr ⟨p, hp, rfl⟩
  · intro hk
    rcases List.mem_map.mp hk with ⟨p, hp, he⟩
    exact ⟨p, hp, beq_iff_eq.mpr he⟩

/-- Key membership after a JS-object assignment. -/
lemma mem_stKeys_insertOrdered (st : StateMap) (k s : String) (v : CoinbaseTickerData) :
    s ∈ stKeys (insertOrdered st k v) ↔ s ∈ stKeys st ∨ s = k := by
  rw [stKeys_insertOrdered]
  by_cases h : st.any (fun p => p.1 == k)
  · simp only [h, if_true]
    constructor
    · exact Or.inl
    · rintro (hs | rfl)
      · exact hs
      · exact (any_eq_mem_stKeys st s).mp h
  · simp [h]

/-- A JS-object assignment keeps the keys duplicate-free. -/
lemma nodup_stKeys_insertOrdered (st : StateMap) (k : String) (v : CoinbaseTickerData)
    (h : (stKeys st).Nodup) : (stKeys (insertOrdered st k v)).Nodup := by
  rw [stKeys_insertOrdered]
  by_cases ha : st.any (fun p => p.1 == k)
  · simpa [ha] using h
  · have hk : k ∉ stKeys st := fun hm => ha ((any_eq_mem_stKeys st k).mpr hm)
    simp [ha, List.nodup_append, h, hk]

/-- Stored values keep their key as `product_id` across an assignment. -/
lemma entries_insertOrdered (st : StateMap) (k : String) (v : CoinbaseTickerData)
    (hst : ∀ p ∈ st, p.2.product_id = p.1) (hv : v.product_id = k) :
    ∀ p ∈ insertOrdered st k v, p.2.product_id = p.1 := by
  intro p hp
  unfold insertOrdered at hp
  by_cases ha : st.any (fun q => q.1 == k)
  · rw [if_pos ha] at hp
    rcases List.mem_map.mp hp with ⟨q, hq, he⟩
    by_cases hqk : q.1 == k
    · rw [if_pos hqk] at he
      rw [← he]
      exact hv
    · rw [if_neg hqk] at he
      rw [← he]
      exact hst q hq
  · rw [if_neg ha] at hp
    rcases List.mem_append.mp hp with hp | hp
    · exact hst p hp
    · rw [List.mem_singleton] at hp
      subst hp
      exact hv

/-- With duplicate-free keys an entry's value is determined by its key. -/
lemma entry_unique (st : StateMap) (k : String) (v1 v2 : CoinbaseTickerData)
    (hnd : (stKeys st).Nodup) (h1 : (k, v1) ∈ st) (h2 : (k, v2) ∈ st) : v1 = v2 := by
  induction st with
  | nil => cases h1
  | cons p rest ih =>
    simp only [stKeys, List.map_cons, List.nodup_cons] at hnd
    rcases List.mem_cons.mp h1 with e1 | h1m <;> rcases List.mem_cons.mp h2 with e2 | h2m
    · rw [← e1] at e2
      exact (Prod.mk.injEq .. ▸ e2).2.symm
    · exfalso
      exact hnd.1 (e1 ▸ List.mem_map.mpr ⟨(k, v2), h2m, rfl⟩)
    · exfalso
      exact hnd.1 (e2 ▸ List.mem_map.mpr ⟨(k, v1), h1m, rfl⟩)
    · exact ih hnd.2 h1m h2m

/-- With duplicate-free keys, membership determines the lookup. -/
lemma lookupState_of_mem (st : StateMap) (k : String) (v : CoinbaseTickerData)
    (hnd : (stKeys st).Nodup) (hm : (k, v) ∈ st) : lookupState st k = some v := by
  induction st with
  | nil => cases hm
  | cons p rest ih =>
    simp only [stKeys, List.map_cons, List.nodup_cons] at hnd
    rcases List.mem_cons.mp hm with e | hmr
    · rw [← e]
      simp [lookupState, List.find?]
    · have hk : k ∈ List.map Prod.fst rest := List.mem_map.mpr ⟨(k, v), hmr, rfl⟩
      have hpk : (p.1 == k) = false := by
        rcases h : p.1 == k with _ | _
        · rfl
        · exact absurd (beq_iff_eq.mp h ▸ hk) hnd.1
      simpa [lookupState, List.find?, hpk] using ih hnd.2 hmr

/-- Looking up the just-assigned key yields the just-assigned value. -/
lemma lookupState_insertOrdered_self (st : StateMap) (k : String)
    (v : CoinbaseTickerData) :
    lookupState (insertOrdered st k v) k = some v := by
  induction st with
  | nil => simp [insertOrdered, lookupState, List.find?]
  | cons p rest ih =>
    by_cases hpk : p.1 == k
    · have hany : (p :: rest).any (fun q => q.1 == k) = true := by
        simp [List.any_cons, hpk]
      simp only [insertOrdered, hany, if_true, List.map_cons, if_pos hpk]
      simp [lookupState, List.find?]
    · have hpk2 : (p.1 == k) = false := by simpa using hpk
      by_cases hra : rest.any (fun q => q.1 == k)
      · have hany : (p :: rest).any (fun q => q.1 == k) = true := by
          simp [List.any_cons, hra]
        simp only [insertOrdered, hany, if_true, List.map_cons, if_neg hpk]
        simp only [insertOrdered, hra, if_true] at ih
        simpa [lookupState, List.find?, hpk2] using ih
      · have hany : (p :: rest).any (fun q => q.1 == k) = false := by
          simp [List.any_cons, hpk2, hra]
        simp only [insertOrdered, hany, Bool.false_eq_true, if_false, List.cons_append]
        have hra2 : ¬(rest.any (fun q => q.1 == k) = true) := hra
        simp only [insertOrdered, hra2, Bool.false_eq_true, if_false] at ih
        simpa [lookupState, List.find?, hpk2] using ih

/-- Overwriting one key leaves every other lookup unchanged. -/
lemma lookupState_overwrite_ne (st : StateMap) (k s : String) (v : CoinbaseTickerData)
    (hne : s ≠ k) :
    lookupState (st.map (fun p => if p.1 == k then (k, v) else p)) s =
      lookupState st s := by
  induction st with
  | nil => rfl
  | cons p rest ih =>
    simp only [List.map_cons]
    by_cases hpk : p.1 == k
    · have h1 : ((k : String) == s) = false := by
        simp [beq_iff_eq]
        exact fun h => hne (h.symm)
      have h2 : (p.1 == s) = false := by
        simp [beq_iff_eq]
        rw [beq_iff_eq.mp hpk]
        exact fun h => hne (h.symm)
      rw [if_pos hpk]
      simpa [lookupState, List.find?, h1, h2] using ih
    · rw [if_neg hpk]
      by_cases hps : p.1 == s
      · simp [lookupState, List.find?, hps]
      · have hps2 : (p.1 == s) = false := by simpa using hps
        simpa [lookupState, List.find?, hps2] using ih

/-- Assigning one key leaves every other lookup unchanged. -/
lemma lookupState_insertOrdered_ne (st : StateMap) (k s : String)
    (v : CoinbaseTickerData) (hne : s ≠ k) :
    lookupState (insertOrdered st k v) s = lookupState st s := by
  unfold insertOrdered
  by_cases ha : st.any (fun q => q.1 == k)
  · rw [if_pos ha]
    exact lookupState_overwrite_ne st k s v hne
  · rw [if_neg ha]
    have hk : ((k : String) == s) = false := by
      simp [beq_iff_eq]
      exact fun h => hne (h.symm)
    unfold lookupState
    rw [List.find?_append]
    have h2 : List.find? (fun q => q.1 == s) [(k, v)] = none := by
      simp [List.find?, hk]
    rw [h2, Option.or_none]

/-- One message's effect on a lookup: the message's own contribution for
the symbol, if any, else the previous binding. -/
lemma lookupState_stepMessage (st : StateMap) (m : WsMessage) (s : String) :
    lookupState (stepMessage st m) s = (tickerFor m s).or (lookupState st s) := by
  cases m with
  | binary => simp [stepMessage, tickerFor, tickerOfMsg, Option.none_or]
  | utf8 v =>
    by_cases hg : isCoinbaseTickerData v
    · simp only [stepMessage, hg, if_true, tickerFor, tickerOfMsg]
      by_cases hps : (extractTicker v).product_id == s
      · rw [if_pos hps]
        rw [← beq_iff_eq.mp hps]
        rw [lookupState_insertOrdered_self]
        rfl
      · rw [if_neg hps]
        have hne : s ≠ (extractTicker v).product_id := by
          intro h
          exact hps (beq_iff_eq.mpr h.symm)
        rw [lookupState_insertOrdered_ne _ _ _ _ hne, Option.none_or]
    · simp [stepMessage, hg, tickerFor, tickerOfMsg, Option.none_or]

/-- A fold of messages over the mapping: each lookup is the last ticker the
messages carry for that symbol, else the previous binding. -/
lemma lookupState_foldl (fr : List WsMessage) : ∀ (st : StateMap) (s : String),
    lookupState (fr.foldl stepMessage st) s =
      (lastTicker fr s).or (lookupState st s) := by
  induction fr with
  | nil =>
    intro st s
    simp [lastTicker, Option.none_or]
  | cons m fr ih =>
    intro st s
    simp only [List.foldl_cons, lastTicker]
    rw [ih, lookupState_stepMessage]
    exact Option.or_assoc.symm

/-- A step keeps the keys inside the symbols the messages may report. -/
lemma stKeys_stepMessage_subset (pids : List String) (st : StateMap) (m : WsMessage)
    (hsub : ∀ td, tickerOfMsg m = some td → td.product_id ∈ pids)
    (hk : stKeys st ⊆ pids) : stKeys (stepMessage st m) ⊆ pids := by
  cases m with
  | binary => exact hk
  | utf8 v =>
    by_cases hg : isCoinbaseTickerData v
    · simp only [stepMessage, hg, if_true]
      intro s hs
      rcases (mem_stKeys_insertOrdered _ _ _ _).mp hs with h | rfl
      · exact hk h
      · exact hsub _ (by simp [tickerOfMsg, hg])
    · simpa [stepMessage, hg] using hk

/-- A step keeps the keys duplicate-free. -/
lemma stKeys_stepMessage_nodup (st : StateMap) (m : WsMessage)
    (hnd : (stKeys st).Nodup) : (stKeys (stepMessage st m)).Nodup := by
  cases m with
  | binary => exact hnd
  | utf8 v =>
    by_cases hg : isCoinbaseTickerData v
    · simp only [stepMessage, hg, if_true]
      exact nodup_stKeys_insertOrdered _ _ _ hnd
    · simpa [stepMessage, hg] using hnd

/-- A step keeps every stored value keyed by its own `product_id`. -/
lemma entries_stepMessage (st : StateMap) (m : WsMessage)
    (hp : ∀ p ∈ st, p.2.product_id = p.1) :
    ∀ p ∈ stepMessage st m, p.2.product_id = p.1 := by
  cases m with
  | binary => exact hp
  | utf8 v =>
    by_cases hg : isCoinbaseTickerData v
    · simp only [stepMessage, hg, if_true]
      exact entries_insertOrdered _ _ _ hp rfl
    · simpa [stepMessage, hg] using hp

/-- The fold of a message sequence keeps all three state invariants. -/
lemma foldl_invariants (pids : List String) :
    ∀ (fr : List WsMessage) (st : StateMap),
      (∀ m ∈ fr, ∀ td, tickerOfMsg m = some td → td.product_id ∈ pids) →
      stKeys st ⊆ pids → (stKeys st).Nodup → (∀ p ∈ st, p.2.product_id = p.1) →
      stKeys (fr.foldl stepMessage st) ⊆ pids ∧
      (stKeys (fr.foldl stepMessage st)).Nodup ∧
      (∀ p ∈ fr.foldl stepMessage st, p.2.product_id = p.1) := by
  intro fr
  induction fr with
  | nil =>
    intro st _ hk hnd hp
    exact ⟨hk, hnd, hp⟩
  | cons m fr ih =>
    intro st hsub hk hnd hp
    simp only [List.foldl_cons]
    exact ih (stepMessage st m)
      (fun m2 hm2 td htd => hsub m2 (List.mem_cons_of_mem _ hm2) td htd)
      (stKeys_stepMessage_subset pids st m
        (fun td htd => hsub m (List.mem_cons_self _ _) td htd) hk)
      (stKeys_stepMessage_nodup st m hnd)
      (entries_stepMessage st m hp)

/-- If the mapping is still short of `productIds.length`, every reachable
requested symbol either is already present or is reported by a remaining
frame, and frames only report requested symbols, then the collector
resolves — at some cut `k` of the frame sequence — with the values of the
mapping folded up to that cut, whose size is then exactly
`productIds.length`. -/
lemma runCollector_resolves (pids : List String) (hnd : pids.Nodup) :
    ∀ (fr : List WsMessage) (st : StateMap),
      st.length < pids.length →
      (∀ m ∈ fr, ∀ td, tickerOfMsg m = some td → td.product_id ∈ pids) →
      stKeys st ⊆ pids → (stKeys st).Nodup →
      (∀ s ∈ pids, s ∈ stKeys st ∨ ∃ m ∈ fr, tickerFor m s ≠ none) →
      ∃ k ≤ fr.length,
        runCollector pids (fr.map WsEvent.message) st =
          (.resolved (((fr.take k).foldl stepMessage st).map Prod.snd), true) ∧
        ((fr.take k).foldl stepMessage st).length = pids.length := by
  intro fr
  induction fr with
  | nil =>
    intro st hlen _ hk hknd hcov
    exfalso
    have hsubp : pids ⊆ stKeys st := by
      intro s hs
      rcases hcov s hs with h | ⟨m, hm, _⟩
      · exact h
      · cases hm
    have h1 : pids.length ≤ (stKeys st).length :=
      (List.subperm_of_subset hnd hsubp).length_le
    have h2 : (stKeys st).length = st.length := List.length_map _ _
    omega
  | cons m fr ih =>
    intro st hlen hsub hk hknd hcov
    have hsubtl : ∀ m2 ∈ fr, ∀ td, tickerOfMsg m2 = some td → td.product_id ∈ pids :=
      fun m2 hm2 td htd => hsub m2 (List.mem_cons_of_mem _ hm2) td htd
    by_cases hstep : stepMessage st m = st ∧ tickerOfMsg m = none
    · -- the frame contributes nothing: a non-ticker frame
      obtain ⟨k, hkle, hr, hl⟩ := ih st hlen hsubtl hk hknd (by
        intro s hs
        rcases hcov s hs with h | ⟨m2, hm2, hne⟩
        · exact Or.inl h
        · rcases List.mem_cons.mp hm2 with rfl | hm2f
          · exfalso
            apply hne
            simp [tickerFor, hstep.2]
          · exact Or.inr ⟨m2, hm2f, hne⟩)
      refine ⟨k + 1, by simpa using Nat.succ_le_succ hkle, ?_, ?_⟩
      · cases m with
        | binary =>
          simpa [runCollector, List.take_succ_cons, hstep.1] using hr
        | utf8 v =>
          have hg : isCoinbaseTickerData v = false := by
            by_contra hg2
            have hg3 : isCoinbaseTickerData v = true := by simpa using hg2
            simp [tickerOfMsg, hg3] at hstep
          simpa [runCollector, hg, List.take_succ_cons, hstep.1] using hr
      · simpa [List.take_succ_cons, hstep.1] using hl
    · -- the frame is a valid ticker
      rcases hm : tickerOfMsg m with _ | td
      · exfalso
        apply hstep
        refine ⟨?_, hm⟩
        cases m with
        | binary => rfl
        | utf8 v =>
          have hg : isCoinbaseTickerData v = false := by
            by_contra hg2
            have hg3 : isCoinbaseTickerData v = true := by simpa using hg2
            simp [tickerOfMsg, hg3] at hm
          simp [stepMessage, hg]
      · obtain ⟨v, hv⟩ : ∃ v, m = WsMessage.utf8 v := by
          cases m with
          | binary => simp [tickerOfMsg] at hm
          | utf8 v => exact ⟨v, rfl⟩
        subst hv
        have hg : isCoinbaseTickerData v = true := by
          by_contra hg2
          have hg3 : isCoinbaseTickerData v = false := by simpa using hg2
          simp [tickerOfMsg, hg3] at hm
        have htd : extractTicker v = td := by
          simpa [tickerOfMsg, hg] using hm
        have hpid : td.product_id ∈ pids :=
          hsub _ (List.mem_cons_self _ _) td hm
        by_cases hres :
            (insertOrdered st td.product_id td).length = pids.length
        · refine ⟨1, by simp, ?_, ?_⟩
          · simp [runCollector, hg, htd, hres, List.take_succ_cons,
              stepMessage]
          · simp [List.take_succ_cons, stepMessage, hg, htd, hres]
        · have hlt : (insertOrdered st td.product_id td).length < pids.length := by
            have hle : (insertOrdered st td.product_id td).length ≤ st.length + 1 := by
              rw [length_insertOrdered]
              split <;> omega
            omega
          have hk2 : stKeys (insertOrdered st td.product_id td) ⊆ pids := by
            intro s hs
            rcases (mem_stKeys_insertOrdered _ _ _ _).mp hs with h | rfl
            · exact hk h
            · exact hpid
          have hknd2 : (stKeys (insertOrdered st td.product_id td)).Nodup :=
            nodup_stKeys_insertOrdered _ _ _ hknd
          have hcov2 : ∀ s ∈ pids,
              s ∈ stKeys (insertOrdered st td.product_id td) ∨
              ∃ m2 ∈ fr, tickerFor m2 s ≠ none := by
            intro s hs
            rcases hcov s hs with h | ⟨m2, hm2, hne⟩
            · exact Or.inl ((mem_stKeys_insertOrdered _ _ _ _).mpr (Or.inl h))
            · rcases List.mem_cons.mp hm2 with rfl | hm2f
              · left
                apply (mem_stKeys_insertOrdered _ _ _ _).mpr
                right
                by_contra hsne
                apply hne
                have : (td.product_id == s) = false := by
                  simp [beq_iff_eq]
                  exact fun h => hsne h.symm
                simp [tickerFor, hm, this]
              · exact Or.inr ⟨m2, hm2f, hne⟩
          obtain ⟨k, hkle, hr, hl⟩ :=
            ih (insertOrdered st td.product_id td) hlt hsubtl hk2 hknd2 hcov2
          refine ⟨k + 1, by simpa using Nat.succ_le_succ hkle, ?_, ?_⟩
          · simpa [runCollector, hg, htd, hres, List.take_succ_cons,
              stepMessage] using hr
          · simpa [List.take_succ_cons, stepMessage, hg, htd] using hl

/-- C1 (amended): if the streaming source delivers valid ticker frames only
for symbols of the non-empty, duplicate-free request set (as the
subscription requests), in any order and interleaved with any invalid
frames, and every requested symbol reports at least once, then the
collector closes the connection and resolves with exactly one quote per
requested symbol — `|S|` quotes in total — each equal to the last valid
ticker frame received for that symbol before resolution (the cut `k`). -/
theorem collector_resolves_one_quote_per_symbol
    (pids : List String) (fr : List WsMessage)
    (hne : pids ≠ []) (hnd : pids.Nodup)
    (hsub : ∀ m ∈ fr, ∀ td, tickerOfMsg m = some td → td.product_id ∈ pids)
    (hcov : ∀ s ∈ pids, ∃ m ∈ fr, tickerFor m s ≠ none) :
    ∃ k ≤ fr.length, ∃ qs : List CoinbaseTickerData,
      runCollector pids (fr.map WsEvent.message) [] = (.resolved qs, true) ∧
      qs.length = pids.length ∧
      (∀ s ∈ pids, ∃! q : CoinbaseTickerData, q ∈ qs ∧ q.product_id = s) ∧
      (∀ q ∈ qs, lastTicker (fr.take k) q.product_id = some q) := by
  obtain ⟨k, hkle, hrun, hlen⟩ :=
    runCollector_resolves pids hnd fr []
      (by simpa using List.length_pos.mpr hne)
      hsub (by simp [stKeys]) (by simp [stKeys])
      (fun s hs => Or.inr (hcov s hs))
  obtain ⟨hksub, hknd2, hpid⟩ :=
    foldl_invariants pids (fr.take k) []
      (fun m hm td htd => hsub m (List.mem_of_mem_take hm) td htd)
      (by simp [stKeys]) (by simp [stKeys]) (by simp)
  have hkeyslen :
      (stKeys ((fr.take k).foldl stepMessage [])).length = pids.length := by
    unfold stKeys
    rw [List.length_map]
    exact hlen
  have hperm : (stKeys ((fr.take k).foldl stepMessage [])).Perm pids :=
    (List.subperm_of_subset hknd2 hksub).perm_of_length_le (by omega)
  refine ⟨k, hkle, ((fr.take k).foldl stepMessage []).map Prod.snd, hrun,
    by rw [List.length_map]; exact hlen, ?_, ?_⟩
  · intro s hs
    have hsk : s ∈ stKeys ((fr.take k).foldl stepMessage []) :=
      hperm.mem_iff.mpr hs
    unfold stKeys at hsk
    rcases List.mem_map.mp hsk with ⟨p, hp, hfst⟩
    refine ⟨p.2, ⟨List.mem_map.mpr ⟨p, hp, rfl⟩, by rw [hpid p hp, hfst]⟩, ?_⟩
    rintro q ⟨hq, hqs⟩
    rcases List.mem_map.mp hq with ⟨p2, hp2, hsnd⟩
    have e1 : p2.1 = s := by rw [← hpid p2 hp2, hsnd, hqs]
    have hmem1 : (s, q) ∈ (fr.take k).foldl stepMessage [] := by
      have he : p2 = (s, q) := Prod.ext e1 hsnd
      rw [← he]
      exact hp2
    have hmem2 : (s, p.2) ∈ (fr.take k).foldl stepMessage [] := by
      have he : p = (s, p.2) := Prod.ext hfst rfl
      rw [← he]
      exact hp
    exact entry_unique _ s q p.2 hknd2 hmem1 hmem2
  · intro q hq
    rcases List.mem_map.mp hq with ⟨p, hp, hsnd⟩
    have hkey : p.1 = q.product_id := by rw [← hsnd, hpid p hp]
    have hlook : lookupState ((fr.take k).foldl stepMessage []) q.product_id
        = some q := by
      apply lookupState_of_mem _ _ _ hknd2
      have he : p = (q.product_id, q) := Prod.ext hkey hsnd
      rw [← he]
      exact hp
    have hfold := lookupState_foldl (fr.take k) [] q.product_id
    rw [hlook] at hfold
    simpa [lookupState, List.find?, Option.or_none] using hfold.symm

/-- Counterexample to C1 as frozen: with request set `["A", "B"]` and a
delivered frame sequence in which *every requested symbol reports at least
once* (`A` in the second frame, `B` in the third) but the first frame is a
valid ticker for the unrequested symbol `C`, the collector resolves after
the second frame with the quotes for `C` and `A` — not one quote per
requested symbol: no quote for `B` is present and a quote for the
unrequested `C` is. -/
theorem collector_offset_symbol_counterexample :
    (∀ s ∈ ["A", "B"], ∃ m ∈
        [WsMessage.utf8 (.obj [("type", .str "ticker"), ("product_id", .str "C"),
            ("price", .str "1")]),
         WsMessage.utf8 (.obj [("type", .str "ticker"), ("product_id", .str "A"),
            ("price", .str "2")]),
         WsMessage.utf8 (.obj [("type", .str "ticker"), ("product_id", .str "B"),
            ("price", .str "3")])], tickerFor m s ≠ none) ∧
    runCollector ["A", "B"]
        ([WsMessage.utf8 (.obj [("type", .str "ticker"), ("product_id", .str "C"),
            ("price", .str "1")]),
          WsMessage.utf8 (.obj [("type", .str "ticker"), ("product_id", .str "A"),
            ("price", .str "2")]),
          WsMessage.utf8 (.obj [("type", .str "ticker"), ("product_id", .str "B"),
            ("price", .str "3")])].map WsEvent.message) [] =
      (.resolved [⟨"C", "1"⟩, ⟨"A", "2"⟩], true) ∧
    ¬ ∃ q ∈ ([⟨"C", "1"⟩, ⟨"A", "2"⟩] : List CoinbaseTickerData),
        q.product_id = "B" := by
  refine ⟨by decide, by decide, by decide⟩

/-- Witness for C1 (amended): a single requested symbol reported by a
single valid ticker frame. -/
theorem collector_resolves_one_quote_per_symbol_witness :
    (["BTC-GBP"] ≠ ([] : List String)) ∧
    (["BTC-GBP"] : List String).Nodup ∧
    (∀ m ∈ [WsMessage.utf8 (.obj [("type", .str "ticker"),
          ("product_id", .str "BTC-GBP"), ("price", .str "101.5")])],
        ∀ td, tickerOfMsg m = some td → td.product_id ∈ ["BTC-GBP"]) ∧
    (∀ s ∈ ["BTC-GBP"], ∃ m ∈
        [WsMessage.utf8 (.obj [("type", .str "ticker"),
          ("product_id", .str "BTC-GBP"), ("price", .str "101.5")])],
        tickerFor m s ≠ none) ∧
    (∃ k ≤ ([WsMessage.utf8 (.obj [("type", .str "ticker"),
          ("product_id", .str "BTC-GBP"), ("price", .str "101.5")])]).length,
      ∃ qs : List CoinbaseTickerData,
        runCollector ["BTC-GBP"]
            ([WsMessage.utf8 (.obj [("type", .str "ticker"),
              ("product_id", .str "BTC-GBP"), ("price", .str "101.5")])].map
              WsEvent.message) [] = (.resolved qs, true) ∧
        qs.length = (["BTC-GBP"] : List String).length ∧
        (∀ s ∈ ["BTC-GBP"], ∃! q : CoinbaseTickerData, q ∈ qs ∧ q.product_id = s) ∧
        (∀ q ∈ qs,
          lastTicker ([WsMessage.utf8 (.obj [("type", .str "ticker"),
            ("product_id", .str "BTC-GBP"), ("price", .str "101.5")])].take k)
            q.product_id = some q)) :=
  have hsub : ∀ m ∈ [WsMessage.utf8 (.obj [("type", .str "ticker"),
        ("product_id", .str "BTC-GBP"), ("price", .str "101.5")])],
      ∀ td, tickerOfMsg m = some td → td.product_id ∈ ["BTC-GBP"] := by
    intro m hm td htd
    rw [List.mem_singleton] at hm
    subst hm
    rw [show tickerOfMsg (WsMessage.utf8 (.obj [("type", .str "ticker"),
        ("product_id", .str "BTC-GBP"), ("price", .str "101.5")])) =
        some ⟨"BTC-GBP", "101.5"⟩ from by decide] at htd
    injection htd with h
    subst h
    decide
  ⟨by decide, by decide, hsub, by decide,
    collector_resolves_one_quote_per_symbol ["BTC-GBP"] _ (by decide) (by decide)
      hsub (by decide)⟩

end CryptoCsv
